import Mathlib

/-
  Verification development for the CivicEase repository.

  The definitions below are a shallow embedding of the pure computational
  core of the repository's TypeScript sources:
    * src/services/geminiService.ts   (cleanJSON and the response post-processing
                                       of analyzeFormImage / analyzeProblemImage /
                                       suggestVaultPreFill)
    * src/unnamed/part_000            (a second variant of the same service file,
                                       whose analyze functions wrap the body in
                                       try/catch and return a default record)
    * src/components/ChatWindow.tsx   (base64 encode/decode helpers, the live
                                       session onmessage handler, stopLiveSession,
                                       and the streaming [[UPDATE:...]] tag loop
                                       of handleSend)

  JavaScript strings are modelled as Lean String / List Char (the sources only
  ever manipulate them code-unit-wise on ASCII data); machine floats used for
  audio timestamps are modelled as rationals; fallible operations return
  Except/Option.  Where a definition needs general recursion the recursion is
  driven by an explicit fuel argument that is always instantiated with more
  fuel than the input can consume, so that the definitions reduce by rfl.
-/

/-! ### Generic string/character utilities mirroring the JavaScript primitives -/

/-- Characters matched by the JavaScript regex class backslash-s (ASCII part). -/
def jsWs (c : Char) : Bool :=
  c = ' ' || c = '\t' || c = '\n' || c = '\r' || c = '\x0b' || c = '\x0c'

/-- Build a string from a list of characters. -/
def strOfList (l : List Char) : String := String.mk l

/-- JavaScript String.prototype.trim on a character list (strips backslash-s
whitespace from both ends). -/
def jsTrimL (l : List Char) : List Char :=
  ((l.dropWhile jsWs).reverse.dropWhile jsWs).reverse

/-- JavaScript String.prototype.trim. -/
def jsTrimS (s : String) : String := strOfList (jsTrimL s.data)

/-- Helper for substring search: does the needle `ns` occur in the haystack? -/
def inclAux (ns : List Char) : List Char → Bool
  | [] => ns.isPrefixOf ([] : List Char)
  | c :: cs => ns.isPrefixOf (c :: cs) || inclAux ns cs

/-- JavaScript String.prototype.includes. -/
def strIncludes (hay needle : String) : Bool := inclAux needle.data hay.data

/-- Strip a literal character-list from the front of a list, if present. -/
def dropPfx : List Char → List Char → Option (List Char)
  | [], l => some l
  | _ :: _, [] => none
  | p :: ps, c :: cs => if c = p then dropPfx ps cs else none

/-- Index of the first occurrence of a character (JavaScript indexOf,
with absence reported as none instead of -1). -/
def firstIdx : List Char → Char → Option Nat
  | [], _ => none
  | x :: xs, c => if x = c then some 0 else (firstIdx xs c).map (· + 1)

/-- Index of the last occurrence of a character (JavaScript lastIndexOf,
with absence reported as none instead of -1). -/
def lastIdx (l : List Char) (c : Char) : Option Nat :=
  (firstIdx l.reverse c).map (fun i => l.length - 1 - i)

/-- Remove the first occurrence of `pat` from the list, if it occurs. -/
def replFirstAux (pat : List Char) : List Char → Option (List Char)
  | [] => none
  | c :: cs =>
    if pat.isPrefixOf (c :: cs) then some ((c :: cs).drop pat.length)
    else (replFirstAux pat cs).map (c :: ·)

/-- JavaScript String.prototype.replace with a plain-string pattern and empty
replacement: removes the first occurrence, or returns the string unchanged. -/
def replaceFirst (s pat : String) : String :=
  match replFirstAux pat.data s.data with
  | some r => strOfList r
  | none => s

/-! ### cleanJSON (src/services/geminiService.ts lines 11-23, identical in
src/unnamed/part_000 lines 17-29) -/

/-- The seven characters of the first regex alternative's literal head. -/
def fenceJsonL : List Char := '\x60' :: '\x60' :: '\x60' :: 'j' :: 's' :: 'o' :: 'n' :: []

/-- The three characters of a bare code fence. -/
def fenceL : List Char := '\x60' :: '\x60' :: '\x60' :: []

/-- One global pass of the JavaScript replace of the regex
"triple-backtick json backslash-s-star, or, backslash-s-star triple-backtick"
by the empty string.  At each position the first alternative (literal
three backticks then "json" then greedy whitespace) is tried first; otherwise
the second alternative matches exactly when the maximal whitespace run at the
position is directly followed by three backticks (whitespace and backtick are
disjoint, so backtracking the greedy star can never succeed anywhere else).
On no match the character is kept and scanning advances by one.  Fuel is
consumed once per step; every step consumes at least one input character, so
length-plus-one fuel never runs out. -/
def fenceStripF : Nat → List Char → List Char
  | 0, l => l
  | _ + 1, [] => []
  | fuel + 1, c :: cs =>
    if (fenceJsonL.isPrefixOf (c :: cs)) then
      fenceStripF fuel (((c :: cs).drop 7).dropWhile jsWs)
    else
      let m := ((c :: cs).takeWhile jsWs).length
      if fenceL.isPrefixOf ((c :: cs).drop m) then
        fenceStripF fuel ((c :: cs).drop (m + 3))
      else
        c :: fenceStripF fuel cs

/-- The second replace pass: remove every occurrence of three backticks. -/
def stripTicks : List Char → List Char
  | '\x60' :: '\x60' :: '\x60' :: cs => stripTicks cs
  | [] => []
  | c :: cs => c :: stripTicks cs

/-- The fully cleaned character list of a response text: both replace passes
followed by trim, before the brace extraction step. -/
def cleanedOf (s : String) : List Char :=
  jsTrimL (stripTicks (fenceStripF (s.data.length + 1) s.data))

/-- cleanJSON from the service file: empty text maps to "(object braces)";
otherwise strip code fences, trim, and if a first open brace and a last close
brace exist with the close brace strictly after the open brace, return the
inclusive slice between them, else return the cleaned text. -/
def cleanJSON (s : String) : String :=
  if s = "" then "\x7b\x7d"
  else
    let cleaned := cleanedOf s
    match firstIdx cleaned '\x7b', lastIdx cleaned '\x7d' with
    | some i, some j =>
      if i < j then strOfList ((cleaned.drop i).take (j + 1 - i))
      else strOfList cleaned
    | _, _ => strOfList cleaned

/-! ### A small JSON reader standing in for JSON.parse

The service code feeds `cleanJSON` output to JSON.parse and uses the result as
an untyped object.  Every JSON document this repository actually produces or
consumes through that path is a flat object whose values are strings, arrays
of strings, or null, so the reader below implements exactly that sublanguage
(numbers, booleans and nested objects are rejected, which is conservative and
irrelevant to the claims, all of which are settled on flat documents).  A
parse failure (none) models JSON.parse throwing a SyntaxError. -/

/-- JSON value in the sublanguage used by this repository's service responses. -/
inductive JVal where
  | str : String → JVal
  | arr : List String → JVal
  | jnull : JVal
deriving DecidableEq, Repr

/-- JSON insignificant whitespace. -/
def jsonWs (c : Char) : Bool := c = ' ' || c = '\t' || c = '\n' || c = '\r'

/-- Skip JSON whitespace. -/
def skipWs (l : List Char) : List Char := l.dropWhile jsonWs

/-- Map a JSON string escape to its character (the escapes the repository's
documents can contain). -/
def escChar (e : Char) : Option Char :=
  if e = '"' ∨ e = '\\' ∨ e = '/' then some e
  else if e = 'n' then some '\n'
  else if e = 't' then some '\t'
  else if e = 'r' then some '\r'
  else none

/-- Parse the body of a JSON string after the opening quote, returning the
decoded characters and the rest of the input after the closing quote. -/
def parseStrAux : List Char → Option (List Char × List Char)
  | [] => none
  | '"' :: rest => some ([], rest)
  | '\\' :: e :: rest =>
    match escChar e with
    | some c => (parseStrAux rest).map fun p => (c :: p.1, p.2)
    | none => none
  | c :: rest => (parseStrAux rest).map fun p => (c :: p.1, p.2)

/-- Parse the comma-separated string items of an array, consuming the closing
bracket.  Called after the opening bracket on a non-empty item list. -/
def parseArrItems : Nat → List Char → Option (List String × List Char)
  | 0, _ => none
  | f + 1, l =>
    match skipWs l with
    | '"' :: rest =>
      match parseStrAux rest with
      | some (s, r1) =>
        match skipWs r1 with
        | ',' :: r2 => (parseArrItems f r2).map fun p => (strOfList s :: p.1, p.2)
        | ']' :: r2 => some ([strOfList s], r2)
        | _ => none
      | none => none
    | _ => none

/-- Parse a JSON value of the sublanguage (string, array of strings, null). -/
def parseValue (f : Nat) (l : List Char) : Option (JVal × List Char) :=
  match skipWs l with
  | '"' :: rest => (parseStrAux rest).map fun p => (JVal.str (strOfList p.1), p.2)
  | '[' :: rest =>
    match skipWs rest with
    | ']' :: r => some (JVal.arr [], r)
    | _ => (parseArrItems f rest).map fun p => (JVal.arr p.1, p.2)
  | 'n' :: 'u' :: 'l' :: 'l' :: rest => some (JVal.jnull, rest)
  | _ => none

/-- Parse the members of an object, consuming the closing brace.  Called after
the opening brace on a non-empty member list. -/
def parsePairs : Nat → List Char → Option (List (String × JVal) × List Char)
  | 0, _ => none
  | f + 1, l =>
    match skipWs l with
    | '"' :: rest =>
      match parseStrAux rest with
      | some (k, r1) =>
        match skipWs r1 with
        | ':' :: r2 =>
          match parseValue f r2 with
          | some (v, r3) =>
            match skipWs r3 with
            | ',' :: r4 => (parsePairs f r4).map fun p => ((strOfList k, v) :: p.1, p.2)
            | '\x7d' :: r4 => some ([(strOfList k, v)], r4)
            | _ => none
          | none => none
        | _ => none
      | none => none
    | _ => none

/-- JSON.parse restricted to a flat object document: a top-level object that
must span the whole input (trailing garbage is a parse error, as in JSON.parse). -/
def parseMiniObj (s : String) : Option (List (String × JVal)) :=
  match skipWs s.data with
  | '\x7b' :: rest =>
    match skipWs rest with
    | '\x7d' :: tail => if (skipWs tail).isEmpty then some [] else none
    | _ =>
      match parsePairs (s.data.length + 1) rest with
      | some (ps, r) => if (skipWs r).isEmpty then some ps else none
      | none => none
  | _ => none

/-- Property access on a parsed object.  JSON.parse lets a repeated key's last
occurrence win, so the lookup scans from the right. -/
def jGet (o : List (String × JVal)) (k : String) : Option JVal :=
  o.reverse.lookup k

/-! ### Response post-processing of the structured-extraction operations

`analyzeFormImage` and `analyzeProblemImage` exist in two variants in the
repository.  Both compute `JSON.parse(cleanJSON(response.text || '\x7b\x7d'))`;
the variant in src/services/geminiService.ts has no try/catch, so an
unparseable cleaned text makes JSON.parse throw and the returned promise
reject, while the variant in src/unnamed/part_000 wraps the body in try/catch
and returns a fixed default record.  The Gateway call itself is external; the
functions below embed everything the code does to the response text. -/

/-- The "response.text or object-braces" defaulting applied before cleanJSON
in both analyze functions. -/
def respTextOrDefault (t : String) : String := if t = "" then "\x7b\x7d" else t

/-- analyzeFormImage response handling, src/services/geminiService.ts variant
(no try/catch: a parse failure is a thrown SyntaxError). -/
def analyzeFormPostSvc (t : String) : Except String (List (String × JVal)) :=
  match parseMiniObj (cleanJSON (respTextOrDefault t)) with
  | some o => .ok o
  | none => .error "SyntaxError"

/-- analyzeProblemImage response handling, src/services/geminiService.ts
variant (no try/catch: a parse failure is a thrown SyntaxError). -/
def analyzeProblemPostSvc (t : String) : Except String (List (String × JVal)) :=
  match parseMiniObj (cleanJSON (respTextOrDefault t)) with
  | some o => .ok o
  | none => .error "SyntaxError"

/-- The default record returned by the part_000 analyzeFormImage on failure. -/
def defaultFormObj : List (String × JVal) :=
  [("formType", JVal.str "Analysis Failed"),
   ("requiredFields", JVal.arr []),
   ("suggestedDocs", JVal.arr [])]

/-- The default record returned by the part_000 analyzeProblemImage on failure. -/
def defaultProblemObj : List (String × JVal) :=
  [("problemType", JVal.str "Unknown Issue"),
   ("severity", JVal.str "low"),
   ("clarifyingQuestions", JVal.arr [])]

/-- analyzeFormImage response handling, src/unnamed/part_000 variant: the
try/catch makes a parse failure return the default record instead. -/
def analyzeFormPost000 (t : String) : List (String × JVal) :=
  match parseMiniObj (cleanJSON (respTextOrDefault t)) with
  | some o => o
  | none => defaultFormObj

/-- analyzeProblemImage response handling, src/unnamed/part_000 variant: the
try/catch makes a parse failure return the default record instead. -/
def analyzeProblemPost000 (t : String) : List (String × JVal) :=
  match parseMiniObj (cleanJSON (respTextOrDefault t)) with
  | some o => o
  | none => defaultProblemObj

/-- suggestVaultPreFill response handling (identical in both service variants):
clean the text, return null if the cleaned text is the word null or contains
it as a substring, otherwise parse it and return the object when its value
member is truthy (a non-empty string, or any array), else null.  Parse
failures are caught and become null. -/
def suggestPostProcess (t : String) : Option (List (String × JVal)) :=
  let text := cleanJSON t
  if text = "null" || strIncludes text "null" then none
  else
    match parseMiniObj text with
    | none => none
    | some o =>
      match jGet o "value" with
      | some (JVal.str v) => if v = "" then none else some o
      | some (JVal.arr _) => some o
      | some JVal.jnull => none
      | none => none

/-! ### Base64 helpers (src/components/ChatWindow.tsx lines 31-43)

`encode` builds a binary string from the bytes with String.fromCharCode and
feeds it to btoa; `decode` feeds the string to atob and reads the resulting
binary string back byte-wise with charCodeAt.  Bytes are Nats below 256; the
fromCharCode/charCodeAt layer is kept explicitly as a map through Char.
btoa/atob are modelled on canonical padded base64, which is exactly the shape
btoa emits (the browser's atob additionally forgives unpadded tails and
embedded whitespace; none of the claims depend on those inputs). -/

/-- The standard base64 alphabet. -/
def b64alpha : List Char :=
  "ABCDEFGHIJKLMNOPQRSTUVWXYZabcdefghijklmnopqrstuvwxyz0123456789+/".data

/-- Digit of a sextet. -/
def b64char (n : Nat) : Char := b64alpha.getD n 'A'

/-- Sextet of a digit, none for characters outside the alphabet. -/
def b64index (c : Char) : Option Nat := firstIdx b64alpha c

/-- btoa on the char codes of the binary string: 3 bytes to 4 digits, with
padding for a 1- or 2-byte tail. -/
def btoaB : List Nat → List Char
  | [] => []
  | [a] => [b64char (a / 4), b64char (a % 4 * 16), '=', '=']
  | [a, b] => [b64char (a / 4), b64char (a % 4 * 16 + b / 16), b64char (b % 16 * 4), '=']
  | a :: b :: c :: rest =>
    b64char (a / 4) :: b64char (a % 4 * 16 + b / 16) ::
    b64char (b % 16 * 4 + c / 64) :: b64char (c % 64) :: btoaB rest

/-- The three bytes of a full quartet of sextets. -/
def quartetBytes (a b c d : Nat) : List Nat :=
  [a * 4 + b / 16, b % 16 * 16 + c / 4, c % 4 * 64 + d]

/-- atob producing the char codes of the binary string, none on invalid
input (modelling the thrown InvalidCharacterError). -/
def atobB : List Char → Option (List Nat)
  | [] => some []
  | w :: x :: y :: z :: rest =>
    if rest.isEmpty then
      if y = '=' ∧ z = '=' then
        match b64index w, b64index x with
        | some a, some b => some [a * 4 + b / 16]
        | _, _ => none
      else if z = '=' then
        match b64index w, b64index x, b64index y with
        | some a, some b, some c => some [a * 4 + b / 16, b % 16 * 16 + c / 4]
        | _, _, _ => none
      else
        match b64index w, b64index x, b64index y, b64index z with
        | some a, some b, some c, some d => some (quartetBytes a b c d)
        | _, _, _, _ => none
    else
      match b64index w, b64index x, b64index y, b64index z, atobB rest with
      | some a, some b, some c, some d, some tl => some (quartetBytes a b c d ++ tl)
      | _, _, _, _, _ => none
  | _ => none

/-- encode from ChatWindow: bytes, to binary string (fromCharCode), to btoa. -/
def encode (bytes : List Nat) : String :=
  strOfList (btoaB ((bytes.map Char.ofNat).map Char.toNat))

/-- decode from ChatWindow: atob to binary string, then charCodeAt per index. -/
def decode (s : String) : Option (List Nat) :=
  (atobB s.data).map fun l => (l.map Char.ofNat).map Char.toNat

/-! ### The live-session component state (src/components/ChatWindow.tsx)

One record holds the refs of the ChatWindow component that the live-session
code reads and writes, together with the external resources they control
(open transport sessions, live capture tracks, open audio contexts, active
intervals), so that releasing a resource is observable.  `schedLog` is a
ghost, append-only log of every playback buffer ever scheduled, used to state
trace properties about scheduling; no code path reads it. -/

/-- Message role. -/
inductive Role where
  | user : Role
  | assistant : Role
deriving DecidableEq, Repr

/-- A conversation message: id, role, accumulated content. -/
structure ChatMsg where
  id : String
  role : Role
  content : String
deriving DecidableEq, Repr

/-- A scheduled playback buffer: its start time on the output clock and its
duration, in seconds (rationals standing in for the float clock). -/
structure Sched where
  startTime : ℚ
  duration : ℚ
deriving DecidableEq, Repr

/-- The ChatWindow refs relevant to the live session, plus the resource world. -/
structure CState where
  messages : List ChatMsg
  userTurn : Option String
  assistantTurn : Option String
  liveSessionRef : Option ℕ
  streamRef : Option (List ℕ)
  audioSourcesRef : List Sched
  inCtxRef : Option ℕ
  outCtxRef : Option ℕ
  frameIntervalRef : Option ℕ
  nextStartTime : ℚ
  isLiveActive : Bool
  voiceVolume : ℚ
  loading : Bool
  openSessions : List ℕ
  liveTracks : List ℕ
  openContexts : List ℕ
  activeIntervals : List ℕ
  schedLog : List Sched
deriving DecidableEq, Repr

/-- One inbound live-server message, carrying whichever of the handled fields
are present (serverContent.interrupted / inputTranscription / \
outputTranscription / turnComplete / modelTurn audio data, the last given by
the duration of the already-decoded buffer). -/
structure LiveMsg where
  interrupted : Bool
  inputTranscription : Option String
  outputTranscription : Option String
  turnComplete : Bool
  audioDuration : Option ℚ
deriving DecidableEq, Repr

/-- Ambient inputs of one onmessage invocation: the output context's current
time and the ids Date.now would mint for a freshly opened user or assistant
turn. -/
structure Env where
  now : ℚ
  newUserId : String
  newAssistantId : String
deriving DecidableEq, Repr

/-- The scheduling clamp of the audio branch: if the running next-start time
has fallen behind the clock, restart at now plus the fixed 0.05 s lookahead. -/
def schedStart (next now : ℚ) : ℚ :=
  if next < now then now + 1 / 20 else next

/-- The onmessage handler of the live session (ChatWindow.tsx lines 234-300).
An interrupted signal stops and discards every tracked source, zeroes the
playback clock and closes both open turns, and returns early.  Otherwise, in
source order: a non-empty input-transcription fragment is appended to the open
user turn, or opens a new user turn remembering its id; output transcription
is handled symmetrically; turnComplete closes both turns; an audio payload is
scheduled at the clamped next-start time, which then advances by the buffer's
duration, and the source is tracked. -/
def handleLiveMessage (s : CState) (m : LiveMsg) (env : Env) : CState :=
  if m.interrupted then
    { s with audioSourcesRef := [], nextStartTime := 0,
             userTurn := none, assistantTurn := none }
  else
    let s1 :=
      match m.inputTranscription with
      | some t =>
        if t = "" then s
        else
          match s.userTurn with
          | some tid =>
            { s with messages := s.messages.map fun msg =>
                if msg.id = tid then { msg with content := msg.content ++ t } else msg }
          | none =>
            { s with userTurn := some env.newUserId,
                     messages := s.messages ++ [⟨env.newUserId, Role.user, t⟩] }
      | none => s
    let s2 :=
      match m.outputTranscription with
      | some t =>
        if t = "" then s1
        else
          match s1.assistantTurn with
          | some tid =>
            { s1 with messages := s1.messages.map fun msg =>
                if msg.id = tid then { msg with content := msg.content ++ t } else msg }
          | none =>
            { s1 with assistantTurn := some env.newAssistantId,
                      messages := s1.messages ++ [⟨env.newAssistantId, Role.assistant, t⟩] }
      | none => s1
    let s3 :=
      if m.turnComplete then { s2 with userTurn := none, assistantTurn := none } else s2
    match m.audioDuration with
    | some d =>
      let start := schedStart s3.nextStartTime env.now
      { s3 with audioSourcesRef := s3.audioSourcesRef ++ [⟨start, d⟩],
                nextStartTime := start + d,
                schedLog := s3.schedLog ++ [⟨start, d⟩] }
    | none => s3

/-- Deliver a sequence of messages to the handler. -/
def runLive (s : CState) (l : List (LiveMsg × Env)) : CState :=
  l.foldl (fun st p => handleLiveMessage st p.1 p.2) s

/-- A message carrying only an input-transcription fragment. -/
def inputMsg (t : String) : LiveMsg := ⟨false, some t, none, false, none⟩

/-- A message carrying only an audio payload of the given duration. -/
def audioMsg (d : ℚ) : LiveMsg := ⟨false, none, none, false, some d⟩

/-- Which of the guarded close/stop calls throw.  Every close below is wrapped
in try/catch in the source, so a failure only skips the world effect; the
track stops and clearInterval cannot throw. -/
structure FailSpec where
  sessionCloseFails : Bool
  inCtxCloseFails : Bool
  outCtxCloseFails : Bool
deriving DecidableEq, Repr

/-- stopLiveSession (ChatWindow.tsx lines 329-355).  Close the transport
session if a ref is held and null the ref; stop every capture track and null
the stream ref; stop and clear the tracked playback sources; close both audio
contexts and null both refs; clear the frame interval (the interval ref itself
is not nulled by the source); reset the UI flags, the playback clock and both
open-turn pointers.  Each close that can throw is guarded exactly as in the
source, so the function is total for every FailSpec: no exception escapes. -/
def stopLiveSession (s : CState) (f : FailSpec) : CState :=
  let s :=
    match s.liveSessionRef with
    | some sid =>
      { s with openSessions := if f.sessionCloseFails then s.openSessions
                               else s.openSessions.filter (fun x => x ≠ sid),
               liveSessionRef := none }
    | none => s
  let s :=
    match s.streamRef with
    | some tracks =>
      { s with liveTracks := s.liveTracks.filter (fun t => ¬ tracks.contains t),
               streamRef := none }
    | none => s
  let s := { s with audioSourcesRef := [] }
  let s :=
    match s.inCtxRef with
    | some c =>
      { s with openContexts := if f.inCtxCloseFails then s.openContexts
                               else s.openContexts.filter (fun x => x ≠ c) }
    | none => s
  let s :=
    match s.outCtxRef with
    | some c =>
      { s with openContexts := if f.outCtxCloseFails then s.openContexts
                               else s.openContexts.filter (fun x => x ≠ c) }
    | none => s
  let s := { s with inCtxRef := none, outCtxRef := none }
  let s :=
    match s.frameIntervalRef with
    | some i => { s with activeIntervals := s.activeIntervals.filter (fun x => x ≠ i) }
    | none => s
  { s with isLiveActive := false, voiceVolume := 0, loading := false,
           nextStartTime := 0, userTurn := none, assistantTurn := none }

/-! ### The streaming form-update tag loop of handleSend
(src/components/ChatWindow.tsx lines 357-459)

On every streamed chunk the accumulated text is rescanned for inline tags of
the shape open-bracket open-bracket UPDATE colon field colon value close-bracket
close-bracket; each tag whose trimmed field:value key has not been seen this
request is applied to the form state once, and every recognized tag instance is
removed from the visible text (a first-occurrence string replace per match).
The regex's two lazy dot-star groups cannot cross a newline, so the field group
runs to the first colon and the value group to the first double close-bracket,
failing if a newline intervenes. -/

/-- One form field (the source's third member is called section, a reserved
word here). -/
structure FField where
  name : String
  value : String
  sectionName : String
deriving DecidableEq, Repr

/-- The form sidebar state. -/
structure FormSt where
  title : String
  fields : List FField
  isCollapsed : Bool
deriving DecidableEq, Repr

/-- The per-request mutable state the tag loop touches.  `appliedLog` is a
ghost, append-only log of the form updates actually dispatched (the
setFormState calls guarded by the seen-set); no code path reads it. -/
structure SendState where
  formState : Option FormSt
  processedTags : List String
  appliedLog : List (String × String)
deriving DecidableEq, Repr

/-- The literal head of an update tag. -/
def tagOpenL : List Char :=
  '[' :: '[' :: 'U' :: 'P' :: 'D' :: 'A' :: 'T' :: 'E' :: ':' :: []

/-- Lazy group up to the first `stop` character; no newline may intervene
(the regex dot does not match newline). -/
def takeNoNl (stop : Char) : List Char → Option (List Char × List Char)
  | [] => none
  | c :: cs =>
    if c = stop then some ([], cs)
    else if c = '\n' then none
    else (takeNoNl stop cs).map fun p => (c :: p.1, p.2)

/-- Lazy group up to the first double close-bracket; no newline may intervene. -/
def takeToRR : List Char → Option (List Char × List Char)
  | ']' :: ']' :: cs => some ([], cs)
  | [] => none
  | c :: cs =>
    if c = '\n' then none else (takeToRR cs).map fun p => (c :: p.1, p.2)

/-- All update-tag matches of the accumulated text in order, each as
(full match, field group, value group); scanning resumes after each match.
Fuel decreases once per position and each step consumes at least one input
character, so length-plus-one fuel never runs out. -/
def findTagsF : Nat → List Char → List (String × String × String)
  | 0, _ => []
  | _ + 1, [] => []
  | fuel + 1, c :: cs =>
    match dropPfx tagOpenL (c :: cs) with
    | some r1 =>
      match takeNoNl ':' r1 with
      | some (g1, r2) =>
        match takeToRR r2 with
        | some (g2, r3) =>
          (strOfList (tagOpenL ++ g1 ++ ':' :: (g2 ++ (']' :: ']' :: []))),
           strOfList g1, strOfList g2) :: findTagsF fuel r3
        | none => findTagsF fuel cs
      | none => findTagsF fuel cs
    | none => findTagsF fuel cs

/-- All update-tag matches of a string. -/
def findTags (s : String) : List (String × String × String) :=
  findTagsF (s.data.length + 1) s.data

/-- JavaScript String.prototype.toLowerCase (character-wise, which coincides
with it on the ASCII data these strings hold). -/
def strToLower (s : String) : String := strOfList (s.data.map Char.toLower)

/-- The fuzzy, case-insensitive bidirectional substring field matching used by
the tag loop. -/
def fieldMatches (fname tagName : String) : Bool :=
  strIncludes (strToLower fname) (strToLower tagName) ||
  strIncludes (strToLower tagName) (strToLower fname)

/-- The setFormState updater dispatched for an unseen tag: no form, no change;
no field fuzzily matching the tag's field name, no change; otherwise every
matching field whose value differs is set to the tag's value. -/
def applyUpdate (prev : Option FormSt) (fieldName fieldValue : String) : Option FormSt :=
  match prev with
  | none => none
  | some p =>
    if ! p.fields.any (fun f => fieldMatches f.name fieldName) then some p
    else
      some { p with fields := p.fields.map fun f =>
        if fieldMatches f.name fieldName && f.value ≠ fieldValue
        then { f with value := fieldValue } else f }

/-- One iteration of the while loop over a regex match: trim both groups, and
if the field:value key is unseen, record it and dispatch the form update;
in every case remove the first occurrence of the full match from the visible
text. -/
def processTag (acc : SendState × String) (tag : String × String × String) :
    SendState × String :=
  let fieldName := jsTrimS tag.2.1
  let fieldValue := jsTrimS tag.2.2
  let uid := fieldName ++ ":" ++ fieldValue
  let st :=
    if acc.1.processedTags.contains uid then acc.1
    else
      { formState := applyUpdate acc.1.formState fieldName fieldValue,
        processedTags := acc.1.processedTags ++ [uid],
        appliedLog := acc.1.appliedLog ++ [(fieldName, fieldValue)] }
  (st, replaceFirst acc.2 tag.1)

/-- Processing of one streamed chunk: rescan the whole accumulated text and
fold the tag loop over the matches, the visible text starting as the full
accumulated text. -/
def processChunk (st : SendState) (fullText : String) : SendState × String :=
  (findTags fullText).foldl processTag (st, fullText)

/-! ### Helper lemmas -/

/-- Filtering twice with the same predicate filters once. -/
theorem filter_idem {α : Type} (p : α → Bool) (l : List α) :
    (l.filter p).filter p = l.filter p := by
  induction l with
  | nil => rfl
  | cons a t ih =>
    by_cases h : p a <;> simp [List.filter_cons, h, ih]

/-- A map that fixes every element of a list is the identity on it. -/
theorem map_noop {α : Type} (f : α → α) (l : List α) (h : ∀ a ∈ l, f a = a) :
    l.map f = l := by
  induction l with
  | nil => rfl
  | cons a t ih =>
    simp only [List.map_cons, h a (by simp)]
    rw [ih fun a ha => h a (by simp [ha])]

/-- Concatenation of a list of strings in order. -/
def strConcat : List String → String
  | [] => ""
  | a :: l => a ++ strConcat l

/-! ### Claims about the interruption handler and stopLiveSession -/

/-- C4: after the live-session message handler processes an interruption
event, from any state, both open-turn pointers are null, the tracked set of
scheduled playback sources is empty, and the playback clock is reset to
zero. -/
theorem c4_interruption_clears_turns_sources_clock
    (s : CState) (m : LiveMsg) (env : Env) (h : m.interrupted = true) :
    (handleLiveMessage s m env).userTurn = none ∧
    (handleLiveMessage s m env).assistantTurn = none ∧
    (handleLiveMessage s m env).audioSourcesRef = [] ∧
    (handleLiveMessage s m env).nextStartTime = 0 := by
  simp [handleLiveMessage, h]

/-- Witness for C4 at a fully populated state: an interruption message (which
here also carries transcription, turn-complete and audio payloads, all ignored
by the early return) clears both turn pointers, the tracked sources and the
clock. -/
theorem c4_witness :
    (handleLiveMessage
      ⟨[⟨"1", Role.user, "x"⟩], some "1", some "2", some 7, some [1, 2], [⟨0, 1⟩],
       some 3, some 4, some 9, 5, true, 2, true, [7], [1, 2, 8], [3, 4], [9], [⟨0, 1⟩]⟩
      ⟨true, some "frag", some "ofrag", true, some 2⟩
      ⟨6, "500", "501"⟩).userTurn = none ∧
    (handleLiveMessage
      ⟨[⟨"1", Role.user, "x"⟩], some "1", some "2", some 7, some [1, 2], [⟨0, 1⟩],
       some 3, some 4, some 9, 5, true, 2, true, [7], [1, 2, 8], [3, 4], [9], [⟨0, 1⟩]⟩
      ⟨true, some "frag", some "ofrag", true, some 2⟩
      ⟨6, "500", "501"⟩).assistantTurn = none ∧
    (handleLiveMessage
      ⟨[⟨"1", Role.user, "x"⟩], some "1", some "2", some 7, some [1, 2], [⟨0, 1⟩],
       some 3, some 4, some 9, 5, true, 2, true, [7], [1, 2, 8], [3, 4], [9], [⟨0, 1⟩]⟩
      ⟨true, some "frag", some "ofrag", true, some 2⟩
      ⟨6, "500", "501"⟩).audioSourcesRef = [] ∧
    (handleLiveMessage
      ⟨[⟨"1", Role.user, "x"⟩], some "1", some "2", some 7, some [1, 2], [⟨0, 1⟩],
       some 3, some 4, some 9, 5, true, 2, true, [7], [1, 2, 8], [3, 4], [9], [⟨0, 1⟩]⟩
      ⟨true, some "frag", some "ofrag", true, some 2⟩
      ⟨6, "500", "501"⟩).nextStartTime = 0 :=
  c4_interruption_clears_turns_sources_clock _ _ _ rfl

/-- C7: stopLiveSession is idempotent.  Applying it twice, under any
combination of close failures on either application, yields exactly the state
of applying it once; in particular all world components (open sessions, live
tracks, open contexts, active intervals) are unchanged by the second
application, so it performs no further resource releases. -/
theorem c7_stop_idempotent (s : CState) (f g : FailSpec) :
    stopLiveSession (stopLiveSession s f) g = stopLiveSession s f := by
  obtain ⟨msgs, ut, at', ls, sr, asr, ic, oc, fi, nst, ila, vv, ld, os, lt, octx, ai, sl⟩ := s
  cases ls <;> cases sr <;> cases ic <;> cases oc <;> cases fi <;>
    simp [stopLiveSession, filter_idem]

/-- C8: stopLiveSession from any state, in particular any partially
initialized state left by a failed connect (any subset of the refs absent),
is total for every failure pattern of the guarded closes (no exception
escapes, mirroring the source's try/catch around every fallible call), and
afterwards no device resource is referenced: the session ref, stream ref and
both audio-context refs are null and the tracked source set is empty. -/
theorem c8_stop_releases_all_refs (s : CState) (f : FailSpec) :
    (stopLiveSession s f).streamRef = none ∧
    (stopLiveSession s f).liveSessionRef = none ∧
    (stopLiveSession s f).inCtxRef = none ∧
    (stopLiveSession s f).outCtxRef = none ∧
    (stopLiveSession s f).audioSourcesRef = [] := by
  obtain ⟨msgs, ut, at', ls, sr, asr, ic, oc, fi, nst, ila, vv, ld, os, lt, octx, ai, sl⟩ := s
  cases ls <;> cases sr <;> cases ic <;> cases oc <;> cases fi <;>
    simp [stopLiveSession]

/-! ### Claims about the service response handling -/

/-- C2 counterexample: on the Gateway response text "hello" (no JSON object
anywhere, unchanged by cleaning), the src/services/geminiService.ts variants
of analyzeFormImage and analyzeProblemImage do not return a default result:
JSON.parse throws and the promise rejects, refuting the claim as stated. -/
theorem c2_counterexample :
    analyzeFormPostSvc "hello" = Except.error "SyntaxError" ∧
    analyzeProblemPostSvc "hello" = Except.error "SyntaxError" :=
  ⟨rfl, rfl⟩

/-- C2 as amended: for every Gateway response text whose cleaned form is not
parseable JSON, the src/unnamed/part_000 variants of analyzeFormImage and
analyzeProblemImage return their fixed default structured results without
throwing, while the src/services/geminiService.ts variants throw a JSON parse
error, rejecting the promise (their caller catches the rejection). -/
theorem c2_amended_unparseable_behaviour (t : String)
    (h : parseMiniObj (cleanJSON (respTextOrDefault t)) = none) :
    analyzeFormPost000 t = defaultFormObj ∧
    analyzeProblemPost000 t = defaultProblemObj ∧
    analyzeFormPostSvc t = Except.error "SyntaxError" ∧
    analyzeProblemPostSvc t = Except.error "SyntaxError" := by
  simp [analyzeFormPost000, analyzeProblemPost000, analyzeFormPostSvc,
        analyzeProblemPostSvc, h]

/-- Witness for the amended C2 at the unparseable response "hello". -/
theorem c2_amended_witness :
    analyzeFormPost000 "hello" = defaultFormObj ∧
    analyzeProblemPost000 "hello" = defaultProblemObj ∧
    analyzeFormPostSvc "hello" = Except.error "SyntaxError" ∧
    analyzeProblemPostSvc "hello" = Except.error "SyntaxError" :=
  c2_amended_unparseable_behaviour "hello" rfl

/-- A syntactically valid suggestion whose value happens to contain the word
null. -/
def vaultNullExample : String :=
  "\x7b\"docType\":\"Aadhaar\",\"value\":\"contains null inside\"\x7d"

/-- C10: suggestVaultPreFill returns null whenever the cleaned response text
contains the four-character substring null anywhere — even, as the concrete
conjuncts show, when that text is a valid JSON object with non-empty docType
and value members, so a valid suggestion is silently discarded. -/
theorem c10_null_substring_discards_suggestion :
    (∀ t : String, strIncludes (cleanJSON t) "null" = true →
      suggestPostProcess t = none) ∧
    suggestPostProcess vaultNullExample = none ∧
    parseMiniObj (cleanJSON vaultNullExample) =
      some [("docType", JVal.str "Aadhaar"),
            ("value", JVal.str "contains null inside")] := by
  refine ⟨fun t h => ?_, ?_, ?_⟩
  · simp [suggestPostProcess, h]
  · rfl
  · rfl

/-- Witness for C10 at the valid-JSON example containing the word null. -/
theorem c10_witness : suggestPostProcess vaultNullExample = none :=
  c10_null_substring_discards_suggestion.1 vaultNullExample rfl

/-- The spec's fenced structured-extraction example response. -/
def fencedExample : String :=
  "```json\n\x7b\"formType\":\"X\",\"requiredFields\":[\"A\"],\"suggestedDocs\":[]\x7d\n```"

/-- C6: for every non-empty input, whenever the fence-stripped and trimmed
text has a first open brace at i and a last close brace at j with j after i,
cleanJSON returns exactly the inclusive slice between them; on the spec's
fenced example the result is the bare three-member JSON document, which parses
to exactly that object; and the empty input yields the empty-object text. -/
theorem c6_cleanjson_extracts_brace_slice :
    (∀ (s : String), s ≠ "" → ∀ i j,
      firstIdx (cleanedOf s) '\x7b' = some i →
      lastIdx (cleanedOf s) '\x7d' = some j → i < j →
      cleanJSON s = strOfList (((cleanedOf s).drop i).take (j + 1 - i))) ∧
    cleanJSON fencedExample =
      "\x7b\"formType\":\"X\",\"requiredFields\":[\"A\"],\"suggestedDocs\":[]\x7d" ∧
    parseMiniObj (cleanJSON fencedExample) =
      some [("formType", JVal.str "X"),
            ("requiredFields", JVal.arr ["A"]),
            ("suggestedDocs", JVal.arr [])] ∧
    cleanJSON "" = "\x7b\x7d" := by
  refine ⟨fun s hs i j hi hj hij => ?_, rfl, rfl, rfl⟩
  unfold cleanJSON
  rw [if_neg hs]
  simp only [hi, hj, hij, if_true]

/-- Witness for the universal part of C6 at a conversationally wrapped
object. -/
theorem c6_witness :
    cleanJSON "x\x7ba\x7dy" =
      strOfList (((cleanedOf "x\x7ba\x7dy").drop 1).take (3 + 1 - 1)) :=
  c6_cleanjson_extracts_brace_slice.1 "x\x7ba\x7dy" (by decide) 1 3 rfl rfl (by omega)

/-! ### Claim C5: the streaming update-tag scenario -/

/-- The spec's example tag. -/
def sampleTag : String := "[[UPDATE:Full Name:Jane Doe]]"

/-- Accumulated text after the first chunk. -/
def sampleChunk1 : String := "Updated. " ++ sampleTag

/-- Accumulated text after a second chunk re-delivering the identical tag. -/
def sampleChunk2 : String := sampleChunk1 ++ " " ++ sampleTag

/-- Request-start tag-loop state: a form with one field named Full Name and a
seen-set freshly cleared, as handleSend does before streaming. -/
def sampleSend0 : SendState :=
  ⟨some ⟨"Sample Form", [⟨"Full Name", "", "Details"⟩], false⟩, [], []⟩

/-- C5: on the accumulated text "Updated. " followed by the Full Name update
tag, the visible text becomes "Updated. " and the Full Name field's value
becomes "Jane Doe", with exactly one update dispatched; when a later chunk of
the same request re-delivers the identical tag, no further update is
dispatched (the seen-set blocks it), the form state is unchanged, and both
tag instances are stripped from the visible text. -/
theorem c5_tag_applied_once_and_stripped :
    (processChunk sampleSend0 sampleChunk1).2 = "Updated. " ∧
    (processChunk sampleSend0 sampleChunk1).1.formState =
      some ⟨"Sample Form", [⟨"Full Name", "Jane Doe", "Details"⟩], false⟩ ∧
    (processChunk sampleSend0 sampleChunk1).1.appliedLog =
      [("Full Name", "Jane Doe")] ∧
    (processChunk (processChunk sampleSend0 sampleChunk1).1 sampleChunk2).1.appliedLog =
      [("Full Name", "Jane Doe")] ∧
    (processChunk (processChunk sampleSend0 sampleChunk1).1 sampleChunk2).1.formState =
      (processChunk sampleSend0 sampleChunk1).1.formState ∧
    (processChunk (processChunk sampleSend0 sampleChunk1).1 sampleChunk2).2 =
      "Updated.  " := by
  decide

/-! ### Claim C1: input-transcription fragments build exactly one user turn -/

/-- Appending fragments to an already-open user turn: if the state's messages
are some prefix plus the open user message, the open-turn pointer holds that
message's id, and no prefix message shares the id, then delivering any
sequence of non-empty input fragments appends their concatenation to that one
message and moves nothing else. -/
theorem runLive_append_fragments (rest : List (String × Env)) :
    ∀ (s : CState) (pre : List ChatMsg) (tid c : String),
      (∀ p ∈ rest, p.1 ≠ "") →
      s.messages = pre ++ [⟨tid, Role.user, c⟩] →
      s.userTurn = some tid →
      (∀ m ∈ pre, m.id ≠ tid) →
      (runLive s (rest.map fun p => (inputMsg p.1, p.2))).messages =
        pre ++ [⟨tid, Role.user, c ++ strConcat (rest.map Prod.fst)⟩] ∧
      (runLive s (rest.map fun p => (inputMsg p.1, p.2))).userTurn = some tid := by
  induction rest with
  | nil =>
    intro s pre tid c _ hm ht _
    simp [runLive, strConcat, hm, ht]
  | cons hd tl ih =>
    intro s pre tid c hne hm ht hfresh
    have hz : hd.1 ≠ "" := hne hd (by simp)
    have hmap : (pre ++ [ChatMsg.mk tid Role.user c]).map
        (fun msg => if msg.id = tid then { msg with content := msg.content ++ hd.1 }
                    else msg) =
        pre ++ [ChatMsg.mk tid Role.user (c ++ hd.1)] := by
      rw [List.map_append, map_noop _ pre (fun a ha => by simp [hfresh a ha])]
      simp
    have hstep : handleLiveMessage s (inputMsg hd.1) hd.2 =
        { s with messages := pre ++ [ChatMsg.mk tid Role.user (c ++ hd.1)] } := by
      simp [handleLiveMessage, inputMsg, hz, ht, hm, hmap]
    have hrun : runLive s ((inputMsg hd.1, hd.2) :: tl.map fun p => (inputMsg p.1, p.2)) =
        runLive (handleLiveMessage s (inputMsg hd.1) hd.2)
          (tl.map fun p => (inputMsg p.1, p.2)) := rfl
    have hrec := ih { s with messages := pre ++ [ChatMsg.mk tid Role.user (c ++ hd.1)] }
      pre tid (c ++ hd.1) (fun p hp => hne p (by simp [hp])) rfl ht hfresh
    simp only [List.map_cons, hrun, hstep]
    refine ⟨?_, hrec.2⟩
    rw [hrec.1]
    simp [strConcat, String.append_assoc]

/-- C1: from a state with no open user turn, a non-empty sequence of
input-transcription fragment messages (each carrying non-empty text, with no
intervening turn-complete or interruption) creates exactly one new user
message: the message list grows by exactly one user entry whose content is the
concatenation of the fragments in arrival order, whose id is the id minted at
the first fragment, and the open-turn pointer remembers exactly that id.  The
freshness hypothesis on the minted id reflects the code's reliance on
Date.now-based ids being unique among existing messages. -/
theorem c1_fragments_make_one_user_turn
    (s : CState) (t0 : String) (e0 : Env) (rest : List (String × Env))
    (ht0 : t0 ≠ "") (hrest : ∀ p ∈ rest, p.1 ≠ "")
    (hturn : s.userTurn = none)
    (hfresh : ∀ m ∈ s.messages, m.id ≠ e0.newUserId) :
    (runLive s (((t0, e0) :: rest).map fun p => (inputMsg p.1, p.2))).messages =
      s.messages ++
        [⟨e0.newUserId, Role.user, strConcat (((t0, e0) :: rest).map Prod.fst)⟩] ∧
    (runLive s (((t0, e0) :: rest).map fun p => (inputMsg p.1, p.2))).userTurn =
      some e0.newUserId := by
  have hstep : handleLiveMessage s (inputMsg t0) e0 =
      { s with userTurn := some e0.newUserId,
               messages := s.messages ++ [⟨e0.newUserId, Role.user, t0⟩] } := by
    simp [handleLiveMessage, inputMsg, ht0, hturn]
  have hrun : runLive s (((t0, e0) :: rest).map fun p => (inputMsg p.1, p.2)) =
      runLive (handleLiveMessage s (inputMsg t0) e0)
        (rest.map fun p => (inputMsg p.1, p.2)) := rfl
  have hrec := runLive_append_fragments rest
    { s with userTurn := some e0.newUserId,
             messages := s.messages ++ [⟨e0.newUserId, Role.user, t0⟩] }
    s.messages e0.newUserId t0 hrest rfl rfl hfresh
  rw [hrun, hstep]
  exact ⟨by rw [hrec.1]; simp [strConcat], hrec.2⟩

/-- A chat state holding only the welcome message, as after mounting. -/
def c1State : CState :=
  ⟨[⟨"init", Role.assistant, "Welcome"⟩], none, none, none, none, [],
   none, none, none, 0, false, 0, false, [], [], [], [], []⟩

/-- Witness for C1: two fragments arriving back to back append into one fresh
user message with the first fragment's minted id. -/
theorem c1_witness :
    (runLive c1State ((("Hello ", Env.mk 0 "100" "101") ::
        [(" world", Env.mk 1 "200" "201")]).map fun p => (inputMsg p.1, p.2))).messages =
      c1State.messages ++
        [⟨(Env.mk 0 "100" "101").newUserId, Role.user,
          strConcat ((("Hello ", Env.mk 0 "100" "101") ::
            [(" world", Env.mk 1 "200" "201")]).map Prod.fst)⟩] ∧
    (runLive c1State ((("Hello ", Env.mk 0 "100" "101") ::
        [(" world", Env.mk 1 "200" "201")]).map fun p => (inputMsg p.1, p.2))).userTurn =
      some (Env.mk 0 "100" "101").newUserId :=
  c1_fragments_make_one_user_turn c1State "Hello " (Env.mk 0 "100" "101")
    [(" world", Env.mk 1 "200" "201")] (by decide) (by decide) rfl (by decide)

/-! ### Claim C3: playback scheduling is gapless-monotone -/

/-- Invariant carried by the audio branch: a chained schedule log whose last
entry ends no later than the running next-start time stays chained under any
further audio payloads. -/
theorem audio_chain_inv (l : List (ℚ × Env)) :
    ∀ s : CState,
      List.Chain' (fun a b : Sched => a.startTime + a.duration ≤ b.startTime) s.schedLog →
      (∀ x, s.schedLog.getLast? = some x → x.startTime + x.duration ≤ s.nextStartTime) →
      List.Chain' (fun a b : Sched => a.startTime + a.duration ≤ b.startTime)
        ((runLive s (l.map fun p => (audioMsg p.1, p.2))).schedLog) := by
  induction l with
  | nil => intro s hchain _; simpa [runLive] using hchain
  | cons hd tl ih =>
    intro s hchain hlast
    have hstart : s.nextStartTime ≤ schedStart s.nextStartTime hd.2.now := by
      unfold schedStart
      split
      · linarith
      · exact le_refl _
    have hstep : handleLiveMessage s (audioMsg hd.1) hd.2 =
        { s with
            audioSourcesRef :=
              s.audioSourcesRef ++ [⟨schedStart s.nextStartTime hd.2.now, hd.1⟩],
            nextStartTime := schedStart s.nextStartTime hd.2.now + hd.1,
            schedLog := s.schedLog ++ [⟨schedStart s.nextStartTime hd.2.now, hd.1⟩] } := by
      simp [handleLiveMessage, audioMsg]
    have hrun : runLive s ((audioMsg hd.1, hd.2) :: tl.map fun p => (audioMsg p.1, p.2)) =
        runLive (handleLiveMessage s (audioMsg hd.1) hd.2)
          (tl.map fun p => (audioMsg p.1, p.2)) := rfl
    simp only [List.map_cons, hrun, hstep]
    apply ih
    · rw [List.chain'_append]
      refine ⟨hchain, List.chain'_singleton _, ?_⟩
      intro x hx y hy
      simp only [List.head?_cons, Option.mem_def, Option.some.injEq] at hy
      subst hy
      exact le_trans (hlast x hx) hstart
    · intro x hx
      simp only [List.getLast?_concat, Option.some.injEq] at hx
      subst hx
      exact le_refl _

/-- C3: for every sequence of audio-payload messages delivered with no
intervening interruption, the scheduled start times satisfy, between every
two consecutive scheduled buffers, start of the next is at least start of the
previous plus the previous duration; and whenever the running next-start time
has fallen behind the playback clock, the scheduled start is clamped to the
clock time plus the fixed 0.05 s lookahead. -/
theorem c3_schedule_monotone_and_clamped :
    (∀ (s : CState) (l : List (ℚ × Env)), s.schedLog = [] →
      List.Chain' (fun a b : Sched => a.startTime + a.duration ≤ b.startTime)
        ((runLive s (l.map fun p => (audioMsg p.1, p.2))).schedLog)) ∧
    (∀ next now : ℚ, next < now → schedStart next now = now + 1 / 20) := by
  constructor
  · intro s l h
    apply audio_chain_inv l s
    · rw [h]
      exact List.chain'_nil
    · intro x hx
      rw [h] at hx
      simp at hx
  · intro next now h
    unfold schedStart
    rw [if_pos h]

/-- A chat state with an empty schedule log and a running clock. -/
def c3State : CState :=
  ⟨[], none, none, none, none, [], none, none, none, 3, false, 0, false,
   [], [], [], [], []⟩

/-- Witness for C3: two buffers of durations 2 and 1 land in a chained
schedule, and a lapsed next-start time 0 against clock 5 is clamped to 5.05. -/
theorem c3_witness :
    List.Chain' (fun a b : Sched => a.startTime + a.duration ≤ b.startTime)
      ((runLive c3State ([((2 : ℚ), Env.mk 5 "" ""), ((1 : ℚ), Env.mk 6 "" "")].map
        fun p => (audioMsg p.1, p.2))).schedLog) ∧
    schedStart 0 5 = 5 + 1 / 20 :=
  ⟨c3_schedule_monotone_and_clamped.1 c3State
      [((2 : ℚ), Env.mk 5 "" ""), ((1 : ℚ), Env.mk 6 "" "")] rfl,
   c3_schedule_monotone_and_clamped.2 0 5 (by norm_num)⟩

/-! ### Claim C9: the base64 helpers are mutually inverse -/

/-- Decoding a base64 digit recovers the sextet it encodes. -/
theorem b64index_b64char : ∀ n < 64, b64index (b64char n) = some n := by decide

/-- No base64 digit is the padding character. -/
theorem b64char_ne_pad : ∀ n < 64, b64char n ≠ '=' := by decide

/-- A found first-occurrence index is below the list length. -/
theorem firstIdx_lt (c : Char) :
    ∀ (l : List Char) (n : Nat), firstIdx l c = some n → n < l.length := by
  intro l
  induction l with
  | nil => intro n h; simp [firstIdx] at h
  | cons x xs ih =>
    intro n h
    unfold firstIdx at h
    split at h
    · cases h; simp
    · obtain ⟨m, hm, rfl⟩ := Option.map_eq_some'.mp h
      have := ih m hm
      simp only [List.length_cons]
      omega

/-- Successful digit decoding yields a sextet. -/
theorem b64index_lt {c : Char} {n : Nat} (h : b64index c = some n) : n < 64 := by
  have := firstIdx_lt c b64alpha n h
  simpa using this

/-- btoa produces output exactly on non-empty input. -/
theorem btoaB_eq_nil (l : List Nat) : btoaB l = [] ↔ l = [] := by
  match l with
  | [] => simp [btoaB]
  | [a] => simp [btoaB]
  | [a, b] => simp [btoaB]
  | a :: b :: c :: rest => simp [btoaB]

/-- Round trip at the binary-string level: atob of btoa of any byte sequence
recovers the bytes. -/
theorem atobB_btoaB : ∀ (l : List Nat), (∀ x ∈ l, x < 256) → atobB (btoaB l) = some l
  | [], _ => rfl
  | [a], h => by
    have ha : a < 256 := h a (by simp)
    have h1 : a / 4 < 64 := by omega
    have h2 : a % 4 * 16 < 64 := by omega
    simp [btoaB, atobB, b64index_b64char _ h1, b64index_b64char _ h2]
    omega
  | [a, b], h => by
    have ha : a < 256 := h a (by simp)
    have hb : b < 256 := h b (by simp)
    have h1 : a / 4 < 64 := by omega
    have h2 : a % 4 * 16 + b / 16 < 64 := by omega
    have h3 : b % 16 * 4 < 64 := by omega
    have hy := b64char_ne_pad _ h3
    simp [btoaB, atobB, hy, b64index_b64char _ h1, b64index_b64char _ h2,
          b64index_b64char _ h3]
    omega
  | a :: b :: c :: rest, h => by
    have ha : a < 256 := h a (by simp)
    have hb : b < 256 := h b (by simp)
    have hc : c < 256 := h c (by simp)
    have h1 : a / 4 < 64 := by omega
    have h2 : a % 4 * 16 + b / 16 < 64 := by omega
    have h3 : b % 16 * 4 + c / 64 < 64 := by omega
    have h4 : c % 64 < 64 := by omega
    have hy := b64char_ne_pad _ h3
    have hz := b64char_ne_pad _ h4
    have ihr := atobB_btoaB rest (fun x hx => h x (by simp [hx]))
    by_cases hrest : rest = []
    · subst hrest
      simp [btoaB, atobB, hy, hz, b64index_b64char _ h1, b64index_b64char _ h2,
            b64index_b64char _ h3, b64index_b64char _ h4, quartetBytes]
      omega
    · have hbne : btoaB rest ≠ [] := by
        rw [Ne, btoaB_eq_nil]; exact hrest
      have hie : (btoaB rest).isEmpty = false := by
        cases hbb : btoaB rest with
        | nil => exact absurd hbb hbne
        | cons u us => rfl
      simp [btoaB, atobB, hie, ihr, b64index_b64char _ h1, b64index_b64char _ h2,
            b64index_b64char _ h3, b64index_b64char _ h4, quartetBytes]
      omega

/-- Bytes rebuilt from sextets are bytes. -/
theorem quartetBytes_lt {a b c d : Nat} (ha : a < 64) (hb : b < 64) (hc : c < 64)
    (hd : d < 64) : ∀ x ∈ quartetBytes a b c d, x < 256 := by
  intro v hv
  simp only [quartetBytes, List.mem_cons, List.not_mem_nil, or_false] at hv
  rcases hv with hv | hv | hv <;> omega

/-- Every byte produced by atob is below 256. -/
theorem atobB_bytes_lt :
    ∀ (s : List Char) (l : List Nat), atobB s = some l → ∀ x ∈ l, x < 256
  | [], l, h => by
    simp only [atobB, Option.some.injEq] at h
    subst h
    simp
  | [c1], l, h => by simp [atobB] at h
  | [c1, c2], l, h => by simp [atobB] at h
  | [c1, c2, c3], l, h => by simp [atobB] at h
  | w :: x :: y :: z :: rest, l, h => by
    unfold atobB at h
    by_cases hre : rest.isEmpty = true
    · rw [if_pos hre] at h
      by_cases hyz : y = '=' ∧ z = '='
      · rw [if_pos hyz] at h
        rcases hw : b64index w with _ | a <;> rcases hx : b64index x with _ | b <;>
          simp only [hw, hx] at h <;> try cases h
        have h1 := b64index_lt hw
        have h2 := b64index_lt hx
        intro v hv
        simp only [List.mem_cons, List.not_mem_nil, or_false] at hv
        omega
      · rw [if_neg hyz] at h
        by_cases hz : z = '='
        · rw [if_pos hz] at h
          rcases hw : b64index w with _ | a <;> rcases hx : b64index x with _ | b <;>
            rcases hy : b64index y with _ | c <;>
            simp only [hw, hx, hy] at h <;> try cases h
          have h1 := b64index_lt hw
          have h2 := b64index_lt hx
          have h3 := b64index_lt hy
          intro v hv
          simp only [List.mem_cons, List.not_mem_nil, or_false] at hv
          rcases hv with hv | hv <;> omega
        · rw [if_neg hz] at h
          rcases hw : b64index w with _ | a <;> rcases hx : b64index x with _ | b <;>
            rcases hy : b64index y with _ | c <;> rcases hzz : b64index z with _ | d <;>
            simp only [hw, hx, hy, hzz] at h <;> try cases h
          exact quartetBytes_lt (b64index_lt hw) (b64index_lt hx)
            (b64index_lt hy) (b64index_lt hzz)
    · rw [if_neg hre] at h
      rcases hw : b64index w with _ | a <;> rcases hx : b64index x with _ | b <;>
        rcases hy : b64index y with _ | c <;> rcases hzz : b64index z with _ | d <;>
        rcases hr : atobB rest with _ | tl <;>
        simp only [hw, hx, hy, hzz, hr] at h <;> try cases h
      intro v hv
      rcases List.mem_append.mp hv with hv | hv
      · exact quartetBytes_lt (b64index_lt hw) (b64index_lt hx)
          (b64index_lt hy) (b64index_lt hzz) v hv
      · exact atobB_bytes_lt rest tl hr v hv

set_option maxRecDepth 2000 in
/-- fromCharCode then charCodeAt is the identity on byte values. -/
theorem charRound : ∀ n < 256, (Char.ofNat n).toNat = n := by decide

/-- The binary-string layer of encode/decode is the identity on bytes. -/
theorem mapCharRound (l : List Nat) (h : ∀ x ∈ l, x < 256) :
    (l.map Char.ofNat).map Char.toNat = l := by
  induction l with
  | nil => rfl
  | cons a t ih =>
    simp only [List.map_cons, List.cons.injEq]
    constructor
    · exact charRound a (h a (by simp))
    · exact ih fun x hx => h x (by simp [hx])

/-- The character list underlying strOfList. -/
theorem strOfList_data (l : List Char) : (strOfList l).data = l := rfl

/-- decode recovers exactly the bytes encode was given. -/
theorem decode_encode (bytes : List Nat) (h : ∀ x ∈ bytes, x < 256) :
    decode (encode bytes) = some bytes := by
  unfold encode decode
  rw [mapCharRound bytes h, strOfList_data, atobB_btoaB bytes h,
      Option.map_some', mapCharRound bytes h]

/-- C9: the base64 audio helpers are mutually inverse.  decode of encode is
the identity on every byte sequence, and every string that decode accepts
re-encodes to a string denoting exactly the same bytes, so an audio frame
survives the outbound encode / inbound decode round trip unchanged. -/
theorem c9_base64_round_trip :
    (∀ bytes : List Nat, (∀ x ∈ bytes, x < 256) → decode (encode bytes) = some bytes) ∧
    (∀ (s : String) (bs : List Nat), decode s = some bs → decode (encode bs) = some bs) := by
  constructor
  · exact decode_encode
  · intro s bs h
    unfold decode at h
    obtain ⟨l, hl, rfl⟩ := Option.map_eq_some'.mp h
    have hlt := atobB_bytes_lt s.data l hl
    rw [mapCharRound l hlt]
    exact decode_encode l hlt

/-- Witness for C9: a three-byte frame round trips, and the canonical base64
text of one byte decodes and re-encodes to the same byte. -/
theorem c9_witness :
    decode (encode [0, 127, 255]) = some [0, 127, 255] ∧
    decode (encode [1]) = some [1] :=
  ⟨c9_base64_round_trip.1 [0, 127, 255] (by decide),
   c9_base64_round_trip.2 "AQ==" [1] rfl⟩
